import Mathlib

/-!
Verification of `scripts/analyze_gospels.py` (class `GospelAnalyzer`).

Texts are modelled as `List Char` (the decoded character sequence that
the Python `str` value holds after reading the file; the `utf-8-sig`
byte-order-mark handling happens at the byte level, before the text our
model starts from).  The Python regex character classes are modelled on the ASCII range that the
inputs use: `[a-z]` is `isLowerAlpha`, `\d` is `Char.isDigit`, the word
class `\w` is letters, digits and underscore (`isWordChar`).
-/

namespace Gospel

/-- Conversion helper: the character list of a string literal. -/
def s2l (s : String) : List Char := s.data

/-- Model of Python `str.lower` on the ASCII range. -/
def pyLower (l : List Char) : List Char := l.map Char.toLower

/-- Matches the regex class `[a-z]`. -/
def isLowerAlpha (c : Char) : Bool := 'a' ≤ c && c ≤ 'z'

/-- Matches the regex word class `\w` (letters, digits, underscore) in the
ASCII range; the regex word boundary `\b` holds between a word and a
non-word character (or at either end of the text next to a word char). -/
def isWordChar (c : Char) : Bool := c.isAlpha || c.isDigit || c == '_'

/-- Scanner state machine implementing `re.findall` with the pattern
`\b[a-z]+\b`:
`prevW` says whether the previously consumed character was a word
character (so no `\b` can separate it from a following letter), and the
accumulator holds the reversed current run of letters, a run whose start
was preceded by a word boundary.  A running match is emitted when the run
ends at a word boundary (end of text, or a non-word character) and is
abandoned when the next character is a word character (digit or
underscore: `\b` fails there, and no suffix of the run can match either,
because no position inside a run of letters is a word boundary). -/
def findWordsAux : Bool → Option (List Char) → List Char → List (List Char)
  | _, none, [] => []
  | _, some run, [] => [run.reverse]
  | prevW, none, c :: cs =>
      if isLowerAlpha c && !prevW then findWordsAux true (some [c]) cs
      else findWordsAux (isWordChar c) none cs
  | _, some run, c :: cs =>
      if isLowerAlpha c then findWordsAux true (some (c :: run)) cs
      else if isWordChar c then findWordsAux true none cs
      else run.reverse :: findWordsAux false none cs

/-- Model of `re.findall` with the pattern `\b[a-z]+\b` (line 74 and line 91
of the source): the list of matches, in text order. -/
def findWords (l : List Char) : List (List Char) := findWordsAux false none l

/-- Model of `GospelAnalyzer.tokenize_and_clean` (lines 71-79).  The NLTK
stopword set is an external collaborator and is passed as the parameter
`stop`.  Source: `[w for w in words if w not in self.stop_words and len(w) > 2]`. -/
def tokenize_and_clean (stop : List (List Char)) (text : List Char) : List (List Char) :=
  (findWords (pyLower text)).filter (fun w => !(stop.contains w) && decide (w.length > 2))

/-- Model of the Python split of the text at the newline character (line 59):
split at every newline; the empty text gives one empty line. -/
def splitLines : List Char → List (List Char)
  | [] => [[]]
  | c :: cs =>
    if c = '\n' then [] :: splitLines cs
    else
      match splitLines cs with
      | [] => [[c]]
      | l :: ls => (c :: l) :: ls

/-- Model of the Python join of lines with the newline character (line 69). -/
def joinLines : List (List Char) → List Char
  | [] => []
  | [l] => l
  | l :: l' :: ls => l ++ '\n' :: joinLines (l' :: ls)

/-- Matches `re.match` with the pattern `^\d{3}:\d{3}` (line 64) and one
MULTILINE match of the same pattern at a line start (line 94): the line begins with
three digits, a colon and three more digits. -/
def isVerseLine : List Char → Bool
  | a :: b :: c :: k :: d :: e :: f :: _ =>
      a.isDigit && b.isDigit && c.isDigit && k == ':' && d.isDigit && e.isDigit && f.isDigit
  | _ => false

/-- Rounding to `k` decimal places, modelling Python `round(x, k)` on the
exact rational value (Python rounds the nearest double and breaks exact
halves towards even; the model breaks them upwards — both stay within half
a unit in the last place, which is all the claims use). -/
def roundTo (k : Nat) (q : ℚ) : ℚ := (round (q * (10 ^ k : ℚ)) : ℤ) / (10 ^ k : ℚ)

/-- Record returned by `GospelAnalyzer.calculate_style_metrics` (lines 100-107). -/
structure StyleMetrics where
  total_words : Nat
  unique_words : Nat
  lexical_diversity : ℚ
  vocabulary_size : Nat
  verse_count : Nat
  avg_words_per_verse : ℚ
deriving DecidableEq, Repr

/-- Model of `GospelAnalyzer.calculate_style_metrics` (lines 89-107).  The
`filtered_words` parameter is present in the Python signature but unused by
the body, which recomputes `all_words` from the text; `len(set(all_words))`
is the number of distinct words, i.e. the length of `all_words.dedup`. -/
def calculate_style_metrics (text : List Char) (filtered_words : List (List Char)) :
    StyleMetrics :=
  let all_words := findWords (pyLower text)
  let verses := ((splitLines text).filter isVerseLine).length
  let total_words := all_words.length
  let unique_words := all_words.dedup.length
  { total_words := total_words
    unique_words := unique_words
    lexical_diversity :=
      if total_words > 0 then roundTo 4 ((unique_words : ℚ) / (total_words : ℚ)) else 0
    vocabulary_size := unique_words
    verse_count := verses
    avg_words_per_verse :=
      if verses > 0 then roundTo 2 ((total_words : ℚ) / (verses : ℚ)) else 0 }

/-- Boolean test that `pat` is an initial segment of `l`. -/
def listStartsWith : List Char → List Char → Bool
  | [], _ => true
  | _ :: _, [] => false
  | p :: ps, c :: cs => p == c && listStartsWith ps cs

/-- Model of Python `text.find(pat)` (lines 50-51): index of the first
occurrence of the substring, `none` when absent (Python returns `-1`). -/
def findSub (pat : List Char) : List Char → Option Nat
  | [] => if listStartsWith pat [] then some 0 else none
  | c :: cs =>
      if listStartsWith pat (c :: cs) then some 0
      else (findSub pat cs).map (· + 1)

/-- Literal start-of-content marker searched for at line 47. -/
def startMarker : List Char := s2l "*** START OF"

/-- Literal end-of-content marker searched for at line 48. -/
def endMarker : List Char := s2l "*** END OF"

/-- Model of the text-cleaning part of `GospelAnalyzer.load_gospel`
(lines 46-69): both marker indices are computed on the original text, the
start slice is applied first and the end slice second (exactly as in the
source, where `end_idx` is not re-computed after the start slice), and
then the header loop drops every line before the first line matching the
verse pattern. -/
def clean_gospel (text : List Char) : List Char :=
  let start_idx := findSub startMarker text
  let end_idx := findSub endMarker text
  let text1 := match start_idx with
    | some i => text.drop i
    | none => text
  let text2 := match end_idx with
    | some i => text1.take i
    | none => text1
  joinLines ((splitLines text2).dropWhile (fun l => !isVerseLine l))

/-- Model of `GospelAnalyzer.load_gospel` (lines 40-69) including the file
read: the filesystem is a map from filename to decoded contents, and a
missing or unreadable file raises (modelled by `Except.error`). -/
def load_gospel (files : List Char → Option (List Char)) (filename : List Char) :
    Except Unit (List Char) :=
  match files filename with
  | none => Except.error ()
  | some text => Except.ok (clean_gospel text)

/-- Distinct elements of a list in order of first appearance: the key
order of the insertion-ordered Python `Counter(words)` (line 111). -/
def firstOccs : List (List Char) → List (List Char)
  | [] => []
  | w :: ws => w :: (firstOccs ws).filter (fun v => decide (v ≠ w))

/-- Comparison used by `Counter.most_common`: larger counts first. -/
def cntGe (a b : List Char × Nat) : Prop := b.2 ≤ a.2

instance : DecidableRel cntGe := fun a b => Nat.decLe b.2 a.2

instance : IsTotal (List Char × Nat) cntGe := ⟨fun a b => le_total b.2 a.2⟩

instance : IsTrans (List Char × Nat) cntGe :=
  ⟨fun _ _ _ hab hbc => le_trans hbc hab⟩

/-- Model of `GospelAnalyzer.get_top_words` (lines 109-112):
`Counter(words).most_common(n)` is the first `n` entries of the
count-descending stable sort of the `(word, count)` pairs taken in
first-appearance order (the CPython `Counter` is insertion-ordered and
`heapq.nlargest`, which `most_common(n)` uses, is stable). -/
def get_top_words (words : List (List Char)) (n : Nat) : List (List Char × Nat) :=
  (List.insertionSort cntGe ((firstOccs words).map (fun w => (w, words.count w)))).take n

/-- Row of the overlap table built at lines 162-168. -/
structure OverlapEntry where
  word : List Char
  matthew : Nat
  mark : Nat
  luke : Nat
  total : Nat
deriving DecidableEq, Repr

/-- Entry built for one common word (lines 157-168): the three counts are
`list.count(word)` over the full filtered token sequence of each document. -/
def entryFor (m mk l : List (List Char)) (w : List Char) : OverlapEntry :=
  { word := w
    matthew := m.count w
    mark := mk.count w
    luke := l.count w
    total := m.count w + mk.count w + l.count w }

/-- Comparison used by `overlap_data.sort(key=..., reverse=True)` (line 171). -/
def totalGe (a b : OverlapEntry) : Prop := b.total ≤ a.total

instance : DecidableRel totalGe := fun a b => Nat.decLe b.total a.total

instance : IsTotal OverlapEntry totalGe := ⟨fun a b => le_total b.total a.total⟩

instance : IsTrans OverlapEntry totalGe :=
  ⟨fun _ _ _ hab hbc => le_trans hbc hab⟩

/-- Model of `GospelAnalyzer.find_overlapping_words` (lines 145-173).  The
Python loop iterates over the set `matthew_words & mark_words & luke_words`;
set iteration order is deterministic within a process but depends on string
hashing, so it is passed in as the parameter `order`, constrained by
`IsSetOrder` in the theorems.  The final `list.sort` is a stable descending
sort on `total`. -/
def find_overlapping_words (m mk l : List (List Char)) (order : List (List Char)) :
    List OverlapEntry :=
  List.insertionSort totalGe (order.map (entryFor m mk l))

/-- Characterisation of a possible iteration order of the Python set
`set(m) & set(mk) & set(l)`: each element listed once, and the elements are
exactly the common distinct tokens. -/
def IsSetOrder (m mk l order : List (List Char)) : Prop :=
  order.Nodup ∧ ∀ w, w ∈ order ↔ (w ∈ m ∧ w ∈ mk ∧ w ∈ l)

/-- Record returned by `GospelAnalyzer.analyze_sentiment` (lines 81-87). -/
structure Sentiment where
  polarity : ℚ
  subjectivity : ℚ
deriving DecidableEq, Repr

/-- Model of `GospelAnalyzer.analyze_sentiment` (lines 81-87).  TextBlob is
an external collaborator, passed as the scoring function `senti`; the
method rounds both of its outputs to 4 decimal places. -/
def analyze_sentiment (senti : List Char → ℚ × ℚ) (text : List Char) : Sentiment :=
  { polarity := roundTo 4 (senti text).1
    subjectivity := roundTo 4 (senti text).2 }

/-- Per-document result of `GospelAnalyzer.analyze_gospel` (lines 136-143),
including the `all_words` list kept for the overlap step. -/
structure GospelResult where
  name : List Char
  sentiment : Sentiment
  style_metrics : StyleMetrics
  top_words : List (List Char × Nat)
  word_cloud : List (List Char × Nat)
  all_words : List (List Char)
deriving DecidableEq, Repr

/-- Per-document record as serialized, after `del results[name]['all_words']`
(line 186). -/
structure GospelOutput where
  name : List Char
  sentiment : Sentiment
  style_metrics : StyleMetrics
  top_words : List (List Char × Nat)
  word_cloud : List (List Char × Nat)
deriving DecidableEq, Repr

/-- Models the deletion of the `all_words` key at line 186. -/
def stripWords (g : GospelResult) : GospelOutput :=
  { name := g.name
    sentiment := g.sentiment
    style_metrics := g.style_metrics
    top_words := g.top_words
    word_cloud := g.word_cloud }

/-- Metadata block built at lines 192-197. -/
structure Metadata where
  total_overlapping_words : Nat
  analysis_type : List Char
  sentiment_tool : List Char
  source : List Char
deriving DecidableEq, Repr

/-- Final output structure built at lines 189-198. -/
structure Report where
  gospels : List (List Char × GospelOutput)
  overlapping_words : List OverlapEntry
  metadata : Metadata
deriving DecidableEq, Repr

/-- Model of `GospelAnalyzer.analyze_gospel` (lines 114-143) for one
document: load, tokenize, sentiment, metrics, top-20 and top-50 words. -/
def analyze_gospel (stop : List (List Char)) (senti : List Char → ℚ × ℚ)
    (files : List Char → Option (List Char)) (name filename : List Char) :
    Except Unit GospelResult :=
  match load_gospel files filename with
  | Except.error e => Except.error e
  | Except.ok text =>
      let filtered_words := tokenize_and_clean stop text
      Except.ok
        { name := name
          sentiment := analyze_sentiment senti text
          style_metrics := calculate_style_metrics text filtered_words
          top_words := get_top_words filtered_words 20
          word_cloud := get_top_words filtered_words 50
          all_words := filtered_words }

/-- Fixed input filename for Matthew (line 33). -/
def matthewFile : List Char := s2l "pg8828.txt"

/-- Fixed input filename for Mark (line 34). -/
def markFile : List Char := s2l "pg8829.txt"

/-- Fixed input filename for Luke (line 35). -/
def lukeFile : List Char := s2l "pg8830.txt"

/-- Model of `GospelAnalyzer.run_analysis` (lines 175-200): analyze the
three Gospels in dict order, compute the overlap, delete the raw token
lists, and assemble the output dict.  `setOrder` supplies the iteration
order of the intersection set, as in `find_overlapping_words`. -/
def run_analysis (stop : List (List Char)) (senti : List Char → ℚ × ℚ)
    (files : List Char → Option (List Char))
    (setOrder : List (List Char) → List (List Char) → List (List Char) → List (List Char)) :
    Except Unit Report :=
  match analyze_gospel stop senti files (s2l "Matthew") matthewFile with
  | Except.error e => Except.error e
  | Except.ok mt =>
    match analyze_gospel stop senti files (s2l "Mark") markFile with
    | Except.error e => Except.error e
    | Except.ok mk =>
      match analyze_gospel stop senti files (s2l "Luke") lukeFile with
      | Except.error e => Except.error e
      | Except.ok lk =>
        let overlap := find_overlapping_words mt.all_words mk.all_words lk.all_words
          (setOrder mt.all_words mk.all_words lk.all_words)
        Except.ok
          { gospels := [(s2l "Matthew", stripWords mt), (s2l "Mark", stripWords mk),
              (s2l "Luke", stripWords lk)]
            overlapping_words := overlap
            metadata :=
              { total_overlapping_words := overlap.length
                analysis_type := s2l "whole_gospel_level"
                sentiment_tool := s2l "TextBlob"
                source := s2l "Weymouth New Testament in Modern Speech (1913)" } }

/-- JSON document model: what `json.dump` receives (string keys in dict
insertion order; Python ints and floats kept apart). -/
inductive Json where
  | str : List Char → Json
  | int : Int → Json
  | num : ℚ → Json
  | arr : List Json → Json
  | obj : List (List Char × Json) → Json

/-- Field lookup in a JSON object. -/
def getField : Json → List Char → Option Json
  | Json.obj kvs, k => kvs.lookup k
  | _, _ => none

/-- Length of a JSON array. -/
def jsonArrLength : Json → Option Nat
  | Json.arr xs => some xs.length
  | _ => none

/-- JSON view of a sentiment record (lines 84-87). -/
def sentimentToJson (s : Sentiment) : Json :=
  Json.obj [(s2l "polarity", Json.num s.polarity), (s2l "subjectivity", Json.num s.subjectivity)]

/-- JSON view of a style-metrics record (lines 100-107). -/
def metricsToJson (m : StyleMetrics) : Json :=
  Json.obj
    [(s2l "total_words", Json.int m.total_words),
     (s2l "unique_words", Json.int m.unique_words),
     (s2l "lexical_diversity", Json.num m.lexical_diversity),
     (s2l "vocabulary_size", Json.int m.vocabulary_size),
     (s2l "verse_count", Json.int m.verse_count),
     (s2l "avg_words_per_verse", Json.num m.avg_words_per_verse)]

/-- JSON view of one word and count pair (line 112). -/
def pairToJson (p : List Char × Nat) : Json :=
  Json.obj [(s2l "word", Json.str p.1), (s2l "count", Json.int p.2)]

/-- JSON view of one overlap row (lines 162-168). -/
def entryToJson (e : OverlapEntry) : Json :=
  Json.obj
    [(s2l "word", Json.str e.word),
     (s2l "matthew", Json.int e.matthew),
     (s2l "mark", Json.int e.mark),
     (s2l "luke", Json.int e.luke),
     (s2l "total", Json.int e.total)]

/-- JSON view of one per-document record (lines 136-142 minus `all_words`). -/
def gospelToJson (g : GospelOutput) : Json :=
  Json.obj
    [(s2l "name", Json.str g.name),
     (s2l "sentiment", sentimentToJson g.sentiment),
     (s2l "style_metrics", metricsToJson g.style_metrics),
     (s2l "top_words", Json.arr (g.top_words.map pairToJson)),
     (s2l "word_cloud", Json.arr (g.word_cloud.map pairToJson))]

/-- JSON view of the metadata block (lines 192-197). -/
def metadataToJson (m : Metadata) : Json :=
  Json.obj
    [(s2l "total_overlapping_words", Json.int m.total_overlapping_words),
     (s2l "analysis_type", Json.str m.analysis_type),
     (s2l "sentiment_tool", Json.str m.sentiment_tool),
     (s2l "source", Json.str m.source)]

/-- JSON document written by `json.dump(results, f, ...)` (line 212): the
output dict of `run_analysis` (lines 189-198) viewed as a JSON value. -/
def reportToJson (r : Report) : Json :=
  Json.obj
    [(s2l "gospels", Json.obj (r.gospels.map (fun p => (p.1, gospelToJson p.2)))),
     (s2l "overlapping_words", Json.arr (r.overlapping_words.map entryToJson)),
     (s2l "metadata", metadataToJson r.metadata)]

/-- Filesystem state around `save_results`: whether the parent directory of
the output file exists, and the content at the output path, if any. -/
structure FSState where
  outDirExists : Bool
  outFile : Option Json

/-- Model of `GospelAnalyzer.save_results` (lines 202-217): create the
parent directory, run the analysis, and only on success write the JSON
document to the output path.  An analysis error propagates (the Python
exception aborts the method before the output file is opened for writing). -/
def save_results (stop : List (List Char)) (senti : List Char → ℚ × ℚ)
    (files : List Char → Option (List Char))
    (setOrder : List (List Char) → List (List Char) → List (List Char) → List (List Char))
    (fs : FSState) : FSState × Except Unit Report :=
  let fs1 : FSState := { fs with outDirExists := true }
  match run_analysis stop senti files setOrder with
  | Except.error e => (fs1, Except.error e)
  | Except.ok r => ({ fs1 with outFile := some (reportToJson r) }, Except.ok r)

/-- Maximal runs of `[a-z]` characters of a text, ignoring word boundaries:
the reading of "maximal runs of alphabetic characters" that the tokenizer
claim asserts. -/
def alphaRuns : List Char → List (List Char)
  | [] => []
  | c :: cs =>
    if isLowerAlpha c then
      (c :: cs.takeWhile isLowerAlpha) :: alphaRuns (cs.dropWhile isLowerAlpha)
    else alphaRuns cs
termination_by l => l.length
decreasing_by
  all_goals simp only [List.length_cons]
  · exact Nat.lt_succ_of_le (List.dropWhile_sublist (l := cs) isLowerAlpha).length_le
  · exact Nat.lt_succ_self _

/-- Run-at-a-time reading of `re.findall` with the pattern `\b[a-z]+\b`:
each maximal
run of `[a-z]` characters is kept exactly when the characters bordering it
are word boundaries — the character before the run (tracked by `prevW`) and
the character after the run are not word characters.  This is the
specification that the character-at-a-time scanner `findWords` is proved
equal to. -/
def runsSpec : Bool → List Char → List (List Char)
  | _, [] => []
  | prevW, c :: cs =>
    if isLowerAlpha c && !prevW then
      (if (cs.dropWhile isLowerAlpha).head?.all (fun d => !isWordChar d) then
        [c :: cs.takeWhile isLowerAlpha]
      else []) ++ runsSpec true (cs.dropWhile isLowerAlpha)
    else runsSpec (isWordChar c) cs
termination_by _ l => l.length
decreasing_by
  all_goals simp only [List.length_cons]
  · exact Nat.lt_succ_of_le (List.dropWhile_sublist (l := cs) isLowerAlpha).length_le
  · exact Nat.lt_succ_self _

/-- Concrete report used by the round-trip witness: the value of
`run_analysis` on a filesystem in which every file holds the single line
"001:001 abc abc", with a zero sentiment scorer, an empty stopword set,
and the first-appearance iteration order. -/
def sampleReport : Report :=
  { gospels :=
      [(s2l "Matthew",
        { name := s2l "Matthew"
          sentiment := { polarity := 0, subjectivity := 0 }
          style_metrics :=
            { total_words := 2, unique_words := 1, lexical_diversity := 1 / 2,
              vocabulary_size := 1, verse_count := 1, avg_words_per_verse := 2 }
          top_words := [(s2l "abc", 2)]
          word_cloud := [(s2l "abc", 2)] }),
       (s2l "Mark",
        { name := s2l "Mark"
          sentiment := { polarity := 0, subjectivity := 0 }
          style_metrics :=
            { total_words := 2, unique_words := 1, lexical_diversity := 1 / 2,
              vocabulary_size := 1, verse_count := 1, avg_words_per_verse := 2 }
          top_words := [(s2l "abc", 2)]
          word_cloud := [(s2l "abc", 2)] }),
       (s2l "Luke",
        { name := s2l "Luke"
          sentiment := { polarity := 0, subjectivity := 0 }
          style_metrics :=
            { total_words := 2, unique_words := 1, lexical_diversity := 1 / 2,
              vocabulary_size := 1, verse_count := 1, avg_words_per_verse := 2 }
          top_words := [(s2l "abc", 2)]
          word_cloud := [(s2l "abc", 2)] })]
    overlapping_words :=
      [{ word := s2l "abc", matthew := 2, mark := 2, luke := 2, total := 6 }]
    metadata :=
      { total_overlapping_words := 1
        analysis_type := s2l "whole_gospel_level"
        sentiment_tool := s2l "TextBlob"
        source := s2l "Weymouth New Testament in Modern Speech (1913)" } }

instance {ε α : Type} [DecidableEq ε] [DecidableEq α] : DecidableEq (Except ε α) := by
  intro a b
  cases a <;> cases b
  · rename_i x y
    exact decidable_of_iff (x = y) (by simp)
  · exact isFalse (by simp)
  · exact isFalse (by simp)
  · rename_i x y
    exact decidable_of_iff (x = y) (by simp)

/-! Helper lemmas. -/

theorem splitLines_ne_nil (l : List Char) : splitLines l ≠ [] := by
  induction l with
  | nil => simp [splitLines]
  | cons c cs ih =>
    rw [splitLines]
    split
    · simp
    · cases h : splitLines cs <;> simp

theorem joinLines_splitLines (l : List Char) : joinLines (splitLines l) = l := by
  induction l with
  | nil => rfl
  | cons c cs ih =>
    rw [splitLines]
    by_cases hc : c = '\n'
    · subst hc
      rw [if_pos rfl]
      obtain ⟨m, ms, hm⟩ : ∃ m ms, splitLines cs = m :: ms := by
        cases h : splitLines cs with
        | nil => exact absurd h (splitLines_ne_nil cs)
        | cons m ms => exact ⟨m, ms, rfl⟩
      rw [hm]
      show '\n' :: joinLines (m :: ms) = '\n' :: cs
      rw [← hm, ih]
    · rw [if_neg hc]
      cases h : splitLines cs with
      | nil => exact absurd h (splitLines_ne_nil cs)
      | cons m ms =>
        rw [h] at ih
        cases ms with
        | nil =>
          show c :: m = c :: cs
          rw [show joinLines [m] = m from rfl] at ih
          rw [ih]
        | cons m2 ms2 =>
          show (c :: m) ++ '\n' :: joinLines (m2 :: ms2) = c :: cs
          rw [← ih]
          rfl

theorem dropWhile_head?_not {α : Type} (p : α → Bool) (l : List α) (x : α)
    (h : (l.dropWhile p).head? = some x) : p x = false := by
  induction l with
  | nil => simp [List.dropWhile] at h
  | cons c cs ih =>
    rw [List.dropWhile_cons] at h
    split at h
    · exact ih h
    · rename_i hc
      simp at h
      rw [← h]
      exact Bool.of_not_eq_true hc

theorem roundTo_close (k : Nat) (q : ℚ) : |roundTo k q - q| ≤ 1 / (2 * 10 ^ k) := by
  have h10 : (0 : ℚ) < 10 ^ k := by positivity
  have key : roundTo k q - q = ((round (q * 10 ^ k) : ℤ) - q * 10 ^ k) / 10 ^ k := by
    unfold roundTo
    field_simp
    ring
  have hx : |((round (q * 10 ^ k) : ℤ) : ℚ) - q * 10 ^ k| ≤ 1 / 2 := by
    rw [abs_sub_comm]
    exact abs_sub_round _
  have hmono : |((round (q * 10 ^ k) : ℤ) : ℚ) - q * 10 ^ k| / 10 ^ k ≤ (1 / 2) / 10 ^ k := by
    gcongr
  have heq : (1 / 2 : ℚ) / 10 ^ k = 1 / (2 * 10 ^ k) := by
    rw [div_div]
  rw [key, abs_div, abs_of_pos h10]
  rw [← heq]
  exact hmono

/-! Claim C1.  The spec asserts that with no start and no end markers the
loader returns the text with only the lines before the first verse-marker
line stripped, and that with no verse-marker line at all the whole
remainder is kept unchanged.  The second half is false: the header loop of
`load_gospel` never stops skipping when no line matches `^\d{3}:\d{3}`, so
the function returns the empty string, not the remainder. -/

/-- C1 counterexample: the text "hello world" contains neither marker and
no verse-marker line; the claim says `load_gospel` keeps it unchanged, but
the code returns the empty string. -/
theorem claim1_counterexample :
    findSub startMarker (s2l "hello world") = none ∧
    findSub endMarker (s2l "hello world") = none ∧
    (∀ l ∈ splitLines (s2l "hello world"), isVerseLine l = false) ∧
    clean_gospel (s2l "hello world") = [] ∧
    clean_gospel (s2l "hello world") ≠ s2l "hello world" := by
  refine ⟨?_, ?_, ?_, ?_, ?_⟩ <;> decide

/-- C1 amended: for input text containing no start and no end marker,
`load_gospel` returns the original text with exactly the lines before the
first verse-marker line removed; if no verse-marker line appears, it
returns the empty string (and does not crash). -/
theorem claim1_amended_loader (text : List Char)
    (hs : findSub startMarker text = none) (he : findSub endMarker text = none) :
    ∃ pre post, splitLines text = pre ++ post ∧
      (∀ l ∈ pre, isVerseLine l = false) ∧
      (∀ l, post.head? = some l → isVerseLine l = true) ∧
      clean_gospel text = joinLines post ∧
      joinLines (splitLines text) = text ∧
      ((∀ l ∈ splitLines text, isVerseLine l = false) → clean_gospel text = []) := by
  refine ⟨(splitLines text).takeWhile (fun l => !isVerseLine l),
    (splitLines text).dropWhile (fun l => !isVerseLine l),
    (List.takeWhile_append_dropWhile _ _).symm, ?_, ?_, ?_, joinLines_splitLines text, ?_⟩
  · intro l hl
    have := List.mem_takeWhile_imp hl
    simpa using this
  · intro l hl
    have := dropWhile_head?_not _ _ _ hl
    simpa using this
  · unfold clean_gospel
    rw [hs, he]
  · intro hall
    unfold clean_gospel
    rw [hs, he]
    have hnil : (splitLines text).dropWhile (fun l => !isVerseLine l) = [] := by
      rw [List.dropWhile_eq_nil_iff]
      intro x hx
      simp [hall x hx]
    show joinLines ((splitLines text).dropWhile (fun l => !isVerseLine l)) = []
    rw [hnil]
    rfl

/-- C1 witness: the amended theorem applied to a concrete marker-free text
with a verse line. -/
theorem claim1_witness :
    ∃ pre post, splitLines (s2l "head\n001:001 x\ntail") = pre ++ post ∧
      (∀ l ∈ pre, isVerseLine l = false) ∧
      (∀ l, post.head? = some l → isVerseLine l = true) ∧
      clean_gospel (s2l "head\n001:001 x\ntail") = joinLines post ∧
      joinLines (splitLines (s2l "head\n001:001 x\ntail")) = s2l "head\n001:001 x\ntail" ∧
      ((∀ l ∈ splitLines (s2l "head\n001:001 x\ntail"), isVerseLine l = false) →
        clean_gospel (s2l "head\n001:001 x\ntail") = []) :=
  claim1_amended_loader (s2l "head\n001:001 x\ntail") (by decide) (by decide)

/-! Claim C4: guarded divisions in `calculate_style_metrics`. -/

/-- C4: lexical diversity equals unique over total words within 4-decimal
rounding when the total is positive and is 0 when the total is 0, and the
average words per verse equals total over verse count within 2-decimal
rounding when the verse count is positive and is 0 when it is 0; both
divisions are guarded, so the function is total. -/
theorem claim4_metric_guards (text : List Char) (fw : List (List Char)) :
    ((calculate_style_metrics text fw).total_words > 0 →
      (calculate_style_metrics text fw).lexical_diversity =
        roundTo 4 (((calculate_style_metrics text fw).unique_words : ℚ) /
          ((calculate_style_metrics text fw).total_words : ℚ)) ∧
      |(calculate_style_metrics text fw).lexical_diversity -
          ((calculate_style_metrics text fw).unique_words : ℚ) /
            ((calculate_style_metrics text fw).total_words : ℚ)| ≤ 1 / 20000) ∧
    ((calculate_style_metrics text fw).total_words = 0 →
      (calculate_style_metrics text fw).lexical_diversity = 0) ∧
    ((calculate_style_metrics text fw).verse_count > 0 →
      (calculate_style_metrics text fw).avg_words_per_verse =
        roundTo 2 (((calculate_style_metrics text fw).total_words : ℚ) /
          ((calculate_style_metrics text fw).verse_count : ℚ)) ∧
      |(calculate_style_metrics text fw).avg_words_per_verse -
          ((calculate_style_metrics text fw).total_words : ℚ) /
            ((calculate_style_metrics text fw).verse_count : ℚ)| ≤ 1 / 200) ∧
    ((calculate_style_metrics text fw).verse_count = 0 →
      (calculate_style_metrics text fw).avg_words_per_verse = 0) := by
  have hdiv : ∀ q : ℚ, |roundTo 4 q - q| ≤ 1 / 20000 := by
    intro q
    have := roundTo_close 4 q
    norm_num at this
    exact this
  have havg : ∀ q : ℚ, |roundTo 2 q - q| ≤ 1 / 200 := by
    intro q
    have := roundTo_close 2 q
    norm_num at this
    exact this
  simp only [calculate_style_metrics]
  refine ⟨fun h => ?_, fun h => ?_, fun h => ?_, fun h => ?_⟩
  · rw [if_pos h]
    exact ⟨rfl, hdiv _⟩
  · rw [if_neg (by omega)]
  · rw [if_pos h]
    exact ⟨rfl, havg _⟩
  · rw [if_neg (by omega)]

/-- C4 witness: the guard theorem applied to a concrete text with one verse
line and two words. -/
theorem claim4_witness :
    (calculate_style_metrics (s2l "001:001 cat dog") []).total_words > 0 ∧
    (calculate_style_metrics (s2l "001:001 cat dog") []).lexical_diversity =
      roundTo 4 (((calculate_style_metrics (s2l "001:001 cat dog") []).unique_words : ℚ) /
        ((calculate_style_metrics (s2l "001:001 cat dog") []).total_words : ℚ)) :=
  ⟨by decide, ((claim4_metric_guards (s2l "001:001 cat dog") []).1 (by decide)).1⟩

/-! Claim C10: internal consistency of the metrics record. -/

/-- C10: `vocabulary_size` always equals `unique_words`, and the number of
unique words never exceeds the total word count. -/
theorem claim10_vocab_invariant (text : List Char) (fw : List (List Char)) :
    (calculate_style_metrics text fw).vocabulary_size =
      (calculate_style_metrics text fw).unique_words ∧
    (calculate_style_metrics text fw).unique_words ≤
      (calculate_style_metrics text fw).total_words := by
  constructor
  · rfl
  · simp only [calculate_style_metrics]
    exact (List.dedup_sublist _).length_le

/-! Tokenizer lemmas: the scanner agrees with the run-at-a-time reading. -/

theorem findWordsAux_some (cs : List Char) (acc : List Char) :
    findWordsAux true (some acc) cs =
      (if (cs.dropWhile isLowerAlpha).head?.all (fun d => !isWordChar d) then
        [acc.reverse ++ cs.takeWhile isLowerAlpha]
      else []) ++ findWordsAux true none (cs.dropWhile isLowerAlpha) := by
  induction cs generalizing acc with
  | nil => simp [findWordsAux]
  | cons d ds ih =>
    by_cases hd : isLowerAlpha d
    · rw [show findWordsAux true (some acc) (d :: ds) = findWordsAux true (some (d :: acc)) ds by
        simp [findWordsAux, hd]]
      rw [ih (d :: acc)]
      rw [List.dropWhile_cons_of_pos hd, List.takeWhile_cons_of_pos hd]
      simp
    · have hd' : isLowerAlpha d = false := by simpa using hd
      rw [List.dropWhile_cons_of_neg (by simp [hd']), List.takeWhile_cons_of_neg (by simp [hd'])]
      by_cases hw : isWordChar d
      · rw [show findWordsAux true (some acc) (d :: ds) = findWordsAux true none ds by
          simp [findWordsAux, hd', hw]]
        rw [show findWordsAux true none (d :: ds) = findWordsAux true none ds by
          simp [findWordsAux, hd', hw]]
        simp [hw]
      · have hw' : isWordChar d = false := by simpa using hw
        rw [show findWordsAux true (some acc) (d :: ds) =
            acc.reverse :: findWordsAux false none ds by
          simp [findWordsAux, hd', hw']]
        rw [show findWordsAux true none (d :: ds) = findWordsAux false none ds by
          simp [findWordsAux, hd', hw']]
        simp [hw']

theorem findWordsAux_none_eq_runsSpec (n : Nat) :
    ∀ l : List Char, l.length ≤ n → ∀ prevW, findWordsAux prevW none l = runsSpec prevW l := by
  induction n with
  | zero =>
    intro l hl prevW
    have : l = [] := List.length_eq_zero.mp (Nat.le_zero.mp hl)
    subst this
    simp [findWordsAux, runsSpec]
  | succ n ih =>
    intro l hl prevW
    match l with
    | [] => simp [findWordsAux, runsSpec]
    | c :: cs =>
      rw [runsSpec]
      by_cases h : isLowerAlpha c && !prevW
      · rw [if_pos h]
        rw [show findWordsAux prevW none (c :: cs) = findWordsAux true (some [c]) cs by
          simp [findWordsAux, h]]
        rw [findWordsAux_some]
        have hlen : (cs.dropWhile isLowerAlpha).length ≤ n := by
          have h1 := (List.dropWhile_sublist (l := cs) isLowerAlpha).length_le
          have h2 : cs.length + 1 ≤ n + 1 := by simpa using hl
          omega
        rw [ih _ hlen true]
        simp
      · rw [if_neg h]
        rw [show findWordsAux prevW none (c :: cs) = findWordsAux (isWordChar c) none cs by
          simp [findWordsAux, h]]
        exact ih cs (by simpa using Nat.le_of_succ_le_succ (by simpa using hl)) _

theorem findWords_eq_runsSpec (l : List Char) : findWords l = runsSpec false l :=
  findWordsAux_none_eq_runsSpec l.length l (le_refl _) false

/-! Claim C2.  The spec asserts that the candidate tokens are exactly the
maximal alphabetic runs of the lowercased text, with non-alphabetic
characters (digits included) never causing a run to be dropped.  The regex
`\b[a-z]+\b` disagrees: a run adjacent to a digit or underscore has no word
boundary on that side, so the whole run is dropped. -/

/-- C2 counterexample: on the input "abc1" the maximal alphabetic runs of
the lowercased text are just "abc", but the tokenizer extracts no
candidate token at all, because the boundary `\b` fails between "c"
and "1". -/
theorem claim2_counterexample :
    findWords (pyLower (s2l "abc1")) = [] ∧
    alphaRuns (pyLower (s2l "abc1")) = [s2l "abc"] ∧
    findWords (pyLower (s2l "abc1")) ≠ alphaRuns (pyLower (s2l "abc1")) := by
  have h2 : alphaRuns (pyLower (s2l "abc1")) = [s2l "abc"] := by
    rw [show pyLower (s2l "abc1") = ['a', 'b', 'c', '1'] from by decide]
    simp [alphaRuns, List.takeWhile, List.dropWhile,
      show isLowerAlpha 'a' = true from rfl, show isLowerAlpha 'b' = true from rfl,
      show isLowerAlpha 'c' = true from rfl, show isLowerAlpha '1' = false from rfl]
    decide
  refine ⟨by decide, h2, ?_⟩
  rw [h2]
  decide

/-- C2 amended: for every input string the candidate tokens are exactly the
maximal runs of lowercase alphabetic characters of the lowercased text that
are bordered by word boundaries: a run next to a digit or an underscore is
dropped entirely, while other non-alphabetic characters (punctuation,
spaces) delimit tokens; in particular the input composed of the letters
d, o, n, an apostrophe (character 39) and t yields the candidate tokens
"don" and "t". -/
theorem claim2_amended_tokens :
    (∀ text : List Char, findWords (pyLower text) = runsSpec false (pyLower text)) ∧
    findWords (pyLower [Char.ofNat 100, Char.ofNat 111, Char.ofNat 110, Char.ofNat 39,
        Char.ofNat 116]) =
      [[Char.ofNat 100, Char.ofNat 111, Char.ofNat 110], [Char.ofNat 116]] :=
  ⟨fun text => findWords_eq_runsSpec (pyLower text), by decide⟩

/-! Claim C3: the filter step of the tokenizer. -/

/-- C3: every token returned by `tokenize_and_clean` has length above 2 and
is not a stopword, and the returned sequence is a sublist (order preserved,
duplicates retained) of the candidate-token sequence of the input. -/
theorem claim3_filtered_tokens (stop : List (List Char)) (text : List Char) :
    (∀ w ∈ tokenize_and_clean stop text, 2 < w.length ∧ w ∉ stop) ∧
    List.Sublist (tokenize_and_clean stop text) (findWords (pyLower text)) := by
  constructor
  · intro w hw
    unfold tokenize_and_clean at hw
    rw [List.mem_filter] at hw
    obtain ⟨-, hcond⟩ := hw
    simp only [Bool.and_eq_true, Bool.not_eq_true', decide_eq_true_eq] at hcond
    obtain ⟨hc, hlen⟩ := hcond
    refine ⟨hlen, fun hmem => ?_⟩
    rw [List.contains_eq_any_beq] at hc
    have : stop.any (fun x => w == x) = true := List.any_eq_true.mpr ⟨w, hmem, by simp⟩
    rw [this] at hc
    cases hc
  · exact List.filter_sublist _

/-- C3 witness: the filter theorem applied to a concrete stopword list and
text, at the surviving token "cat". -/
theorem claim3_witness :
    2 < (s2l "cat").length ∧ (s2l "cat") ∉ [s2l "the"] :=
  (claim3_filtered_tokens [s2l "the"] (s2l "the cat sat")).1 (s2l "cat") (by decide)

/-! Lemmas about `firstOccs` and the stability of the count-descending sort. -/

theorem mem_firstOccs (w : List Char) : ∀ l : List (List Char), w ∈ firstOccs l ↔ w ∈ l := by
  intro l
  induction l with
  | nil => simp [firstOccs]
  | cons v vs ih =>
    rw [firstOccs]
    by_cases hv : w = v
    · subst hv
      simp
    · simp only [List.mem_cons, List.mem_filter, ih, decide_eq_true_eq]
      constructor
      · rintro (h | ⟨h, -⟩)
        · exact Or.inl h
        · exact Or.inr h
      · rintro (h | h)
        · exact Or.inl h
        · exact Or.inr ⟨h, hv⟩

theorem firstOccs_nodup : ∀ l : List (List Char), (firstOccs l).Nodup := by
  intro l
  induction l with
  | nil => simp [firstOccs]
  | cons v vs ih =>
    rw [firstOccs]
    refine List.Nodup.cons ?_ (ih.filter _)
    intro hv
    have := (List.mem_filter.mp hv).2
    simp at this

theorem firstOccs_length_eq_dedup (l : List (List Char)) :
    (firstOccs l).length = l.dedup.length := by
  have hperm : List.Perm (firstOccs l) l.dedup := by
    refine (List.perm_ext_iff_of_nodup (firstOccs_nodup l) l.nodup_dedup).mpr ?_
    intro w
    rw [mem_firstOccs, List.mem_dedup]
  exact hperm.length_eq

theorem filter_cnt_orderedInsert (a : List Char × Nat) (c : Nat) :
    ∀ l : List (List Char × Nat),
      (List.orderedInsert cntGe a l).filter (fun p => p.2 == c) =
        if a.2 = c then a :: l.filter (fun p => p.2 == c)
        else l.filter (fun p => p.2 == c) := by
  intro l
  induction l with
  | nil =>
    rw [List.orderedInsert]
    by_cases hac : a.2 = c
    · simp [List.filter, hac]
    · simp [List.filter, show (a.2 == c) = false from beq_eq_false_iff_ne.mpr hac, hac]
  | cons b t ih =>
    rw [List.orderedInsert]
    by_cases hr : cntGe a b
    · rw [if_pos hr]
      by_cases hac : a.2 = c
      · simp [List.filter_cons, hac]
      · simp [List.filter_cons, hac]
    · rw [if_neg hr]
      have hb : a.2 < b.2 := by
        unfold cntGe at hr
        omega
      rw [List.filter_cons, List.filter_cons, ih]
      by_cases hac : a.2 = c
      · have hbc : (b.2 == c) = false := by
          simp only [beq_eq_false_iff_ne, ne_eq]
          omega
        rw [hbc, if_pos hac, if_pos hac]
        simp
      · rw [if_neg hac, if_neg hac]

theorem filter_cnt_insertionSort (c : Nat) :
    ∀ l : List (List Char × Nat),
      (List.insertionSort cntGe l).filter (fun p => p.2 == c) =
        l.filter (fun p => p.2 == c) := by
  intro l
  induction l with
  | nil => rfl
  | cons a t ih =>
    rw [List.insertionSort, filter_cnt_orderedInsert, List.filter_cons]
    by_cases hac : a.2 = c
    · rw [if_pos hac, ih, if_pos (by simp [hac])]
    · rw [if_neg hac, ih, if_neg (by simp [hac])]

theorem tie_pair_stable (a b : List Char × Nat) (l : List (List Char × Nat))
    (hab : a.2 = b.2) (h : List.Sublist [a, b] (List.insertionSort cntGe l)) :
    List.Sublist [a, b] l := by
  have h1 : List.Sublist ([a, b].filter (fun p => p.2 == a.2))
      ((List.insertionSort cntGe l).filter (fun p => p.2 == a.2)) :=
    h.filter _
  have h2 : [a, b].filter (fun p => p.2 == a.2) = [a, b] := by
    simp [List.filter_cons, hab]
  rw [h2, filter_cnt_insertionSort] at h1
  exact h1.trans (List.filter_sublist l)

theorem sorted_take_drop {α : Type} (r : α → α → Prop) [IsTrans α r] (l : List α) (n : Nat)
    (hs : List.Sorted r l) (x y : α) (hx : x ∈ l.take n) (hy : y ∈ l.drop n) : r x y := by
  have := List.take_append_drop n l
  rw [← this] at hs
  exact (List.pairwise_append.mp hs).2.2 x hx y hy

/-! Claim C5: `get_top_words`. -/

/-- C5: the ranked list is sorted by non-increasing count; each entry is a
token of the input paired with its multiplicity; entries carry pairwise
distinct words; every distinct token left out has a count no larger than
any entry kept (so the entries are the most frequent ones); when `n` is at
least the number of distinct tokens the output lists them all; and two
entries with equal counts appear in first-appearance order (any tied pair
in the output is a sublist of the count table taken in first-appearance
order). -/
theorem claim5_top_words (words : List (List Char)) (n : Nat) :
    List.Sorted cntGe (get_top_words words n) ∧
    (∀ p ∈ get_top_words words n, p.1 ∈ words ∧ p.2 = words.count p.1) ∧
    ((get_top_words words n).map Prod.fst).Nodup ∧
    (∀ p ∈ get_top_words words n, ∀ w ∈ words,
      w ∉ (get_top_words words n).map Prod.fst → words.count w ≤ p.2) ∧
    (words.dedup.length ≤ n → (get_top_words words n).length = words.dedup.length) ∧
    (∀ a b : List Char × Nat, a.2 = b.2 →
      List.Sublist [a, b] (get_top_words words n) →
      List.Sublist [a, b] ((firstOccs words).map (fun w => (w, words.count w)))) := by
  set pairs := (firstOccs words).map (fun w => (w, words.count w)) with hpairs
  set sorted := List.insertionSort cntGe pairs with hsorted
  have hperm : List.Perm sorted pairs := List.perm_insertionSort cntGe pairs
  have hsort : List.Sorted cntGe sorted := List.sorted_insertionSort cntGe pairs
  have hout : get_top_words words n = sorted.take n := rfl
  have hmem_pairs : ∀ p ∈ pairs, p.1 ∈ words ∧ p.2 = words.count p.1 := by
    intro p hp
    rw [hpairs] at hp
    obtain ⟨w, hw, hwp⟩ := List.mem_map.mp hp
    rw [← hwp]
    exact ⟨(mem_firstOccs w words).mp hw, rfl⟩
  have hfst : pairs.map Prod.fst = firstOccs words := by
    rw [hpairs, List.map_map]
    exact List.map_id _
  refine ⟨?_, ?_, ?_, ?_, ?_, ?_⟩
  · rw [hout]
    exact hsort.sublist (List.take_sublist n sorted)
  · intro p hp
    rw [hout] at hp
    exact hmem_pairs p (hperm.mem_iff.mp ((List.take_sublist n sorted).mem hp))
  · have hnodup : (sorted.map Prod.fst).Nodup := by
      refine ((hperm.map Prod.fst).nodup_iff).mpr ?_
      rw [hfst]
      exact firstOccs_nodup words
    rw [hout]
    exact hnodup.sublist ((List.take_sublist n sorted).map Prod.fst)
  · intro p hp w hw hwout
    have hwp : (w, words.count w) ∈ pairs := by
      rw [hpairs]
      exact List.mem_map.mpr ⟨w, (mem_firstOccs w words).mpr hw, rfl⟩
    have hws : (w, words.count w) ∈ sorted := hperm.mem_iff.mpr hwp
    have hnotin : (w, words.count w) ∉ sorted.take n := by
      intro hmem
      exact hwout (List.mem_map.mpr ⟨(w, words.count w), by rw [← hout] at hmem; exact hmem, rfl⟩)
    have hdrop : (w, words.count w) ∈ sorted.drop n := by
      have := (List.take_append_drop n sorted) ▸ hws
      rcases List.mem_append.mp this with h | h
      · exact absurd h hnotin
      · exact h
    have := sorted_take_drop cntGe sorted n hsort p (w, words.count w) (hout ▸ hp) hdrop
    exact this
  · intro hle
    rw [hout, List.length_take, hperm.length_eq, hpairs, List.length_map,
      firstOccs_length_eq_dedup]
    omega
  · intro a b hab hsub
    rw [hout] at hsub
    exact tie_pair_stable a b pairs hab (hsub.trans (List.take_sublist n sorted))

/-- C5 witness: the ranker theorem applied to a concrete token list, giving
the exact output length when `n` exceeds the number of distinct tokens. -/
theorem claim5_witness :
    (get_top_words [s2l "cat", s2l "sat", s2l "cat"] 5).length =
      ([s2l "cat", s2l "sat", s2l "cat"].dedup).length :=
  (claim5_top_words [s2l "cat", s2l "sat", s2l "cat"] 5).2.2.2.2.1 (by decide)

/-! Lemmas for the overlap finder. -/

theorem isSetOrder_of_parts (m mk l order : List (List Char))
    (h1 : order.Nodup)
    (h2 : ∀ w ∈ order, w ∈ m ∧ w ∈ mk ∧ w ∈ l)
    (h3 : ∀ w ∈ m, w ∈ mk → w ∈ l → w ∈ order) : IsSetOrder m mk l order := by
  refine ⟨h1, fun w => ⟨fun hw => h2 w hw, ?_⟩⟩
  rintro ⟨ha, hb, hc⟩
  exact h3 w ha hb hc

theorem eq_of_perm_sorted_totals :
    ∀ l1 l2 : List OverlapEntry, List.Perm l1 l2 →
      List.Sorted totalGe l1 → List.Sorted totalGe l2 →
      (l1.map OverlapEntry.total).Nodup → l1 = l2 := by
  intro l1
  induction l1 with
  | nil =>
    intro l2 hp _ _ _
    exact (hp.nil_eq).symm ▸ rfl
  | cons a t1 ih =>
    intro l2 hp hs1 hs2 hn
    cases l2 with
    | nil => exact absurd hp.symm (by simp)
    | cons b t2 =>
      rw [List.map_cons, List.nodup_cons] at hn
      have hs1' := List.sorted_cons.mp hs1
      have hs2' := List.sorted_cons.mp hs2
      have hab : a = b := by
        by_contra hne
        have hamem : a ∈ b :: t2 := hp.mem_iff.mp (List.mem_cons_self a t1)
        have hbmem : b ∈ a :: t1 := hp.symm.mem_iff.mp (List.mem_cons_self b t2)
        have ha2 : a ∈ t2 := by
          rcases List.mem_cons.mp hamem with h | h
          · exact absurd h hne
          · exact h
        have hb2 : b ∈ t1 := by
          rcases List.mem_cons.mp hbmem with h | h
          · exact absurd h.symm hne
          · exact h
        have h1 : b.total ≤ a.total := hs1'.1 b hb2
        have h2 : a.total ≤ b.total := hs2'.1 a ha2
        have heq : b.total = a.total := le_antisymm h1 h2
        have : a.total ∈ t1.map OverlapEntry.total :=
          List.mem_map.mpr ⟨b, hb2, heq⟩
        exact hn.1 this
      subst hab
      have ht : t1 = t2 := ih t2 hp.cons_inv hs1'.2 hs2'.2 hn.2
      rw [ht]

/-! Claim C6: the overlap table. -/

/-- C6: for any iteration order of the intersection set, the words of the
overlap table are exactly the common distinct tokens of the three
documents; each row carries the three per-document occurrence counts of
its word and their sum as `total`; and the table is sorted by
non-increasing total. -/
theorem claim6_overlap (m mk l order : List (List Char)) (h : IsSetOrder m mk l order) :
    (∀ w, (∃ e ∈ find_overlapping_words m mk l order, e.word = w) ↔
      (w ∈ m ∧ w ∈ mk ∧ w ∈ l)) ∧
    (∀ e ∈ find_overlapping_words m mk l order,
      e.matthew = m.count e.word ∧ e.mark = mk.count e.word ∧ e.luke = l.count e.word ∧
      e.total = e.matthew + e.mark + e.luke) ∧
    List.Sorted totalGe (find_overlapping_words m mk l order) := by
  have hperm : List.Perm (find_overlapping_words m mk l order)
      (order.map (entryFor m mk l)) :=
    List.perm_insertionSort totalGe _
  refine ⟨?_, ?_, List.sorted_insertionSort totalGe _⟩
  · intro w
    rw [← h.2 w]
    constructor
    · rintro ⟨e, he, hew⟩
      obtain ⟨v, hv, hve⟩ := List.mem_map.mp (hperm.mem_iff.mp he)
      rw [← hew, ← hve]
      exact hv
    · intro hw
      exact ⟨entryFor m mk l w, hperm.mem_iff.mpr (List.mem_map.mpr ⟨w, hw, rfl⟩), rfl⟩
  · intro e he
    obtain ⟨v, hv, hve⟩ := List.mem_map.mp (hperm.mem_iff.mp he)
    rw [← hve]
    exact ⟨rfl, rfl, rfl, rfl⟩

/-- C6 witness: the overlap theorem applied to concrete token lists, giving
the counts of the row for the word "aaa". -/
theorem claim6_witness :
    (entryFor [s2l "aaa", s2l "bbb", s2l "aaa"] [s2l "bbb", s2l "aaa"] [s2l "aaa", s2l "bbb"]
        (s2l "aaa")).matthew =
      [s2l "aaa", s2l "bbb", s2l "aaa"].count (s2l "aaa") ∧
    (entryFor [s2l "aaa", s2l "bbb", s2l "aaa"] [s2l "bbb", s2l "aaa"] [s2l "aaa", s2l "bbb"]
        (s2l "aaa")).total =
      (entryFor [s2l "aaa", s2l "bbb", s2l "aaa"] [s2l "bbb", s2l "aaa"] [s2l "aaa", s2l "bbb"]
          (s2l "aaa")).matthew +
        (entryFor [s2l "aaa", s2l "bbb", s2l "aaa"] [s2l "bbb", s2l "aaa"] [s2l "aaa", s2l "bbb"]
            (s2l "aaa")).mark +
        (entryFor [s2l "aaa", s2l "bbb", s2l "aaa"] [s2l "bbb", s2l "aaa"] [s2l "aaa", s2l "bbb"]
            (s2l "aaa")).luke := by
  have h := (claim6_overlap [s2l "aaa", s2l "bbb", s2l "aaa"] [s2l "bbb", s2l "aaa"]
      [s2l "aaa", s2l "bbb"] [s2l "bbb", s2l "aaa"]
      (isSetOrder_of_parts _ _ _ _ (by decide) (by decide) (by decide))).2.1
      (entryFor [s2l "aaa", s2l "bbb", s2l "aaa"] [s2l "bbb", s2l "aaa"] [s2l "aaa", s2l "bbb"]
        (s2l "aaa")) (by decide)
  exact ⟨h.1, h.2.2.2⟩

/-! Claim C9.  The spec asserts that two runs of the overlap computation on
the same three token sequences produce the same ordered sequence, down to
the relative order of tied totals.  The pre-sort order, however, is the
iteration order of a Python set of strings, which depends on the
per-process string hash seed: on another run the same intersection set can
enumerate in a different order, and the stable sort then leaves tied
entries in that different order.  Determinism therefore holds only up to
the ordering of tied totals. -/

/-- C9 counterexample: the same three token lists with two legitimate
iteration orders of the same intersection set produce different output
sequences (the two entries tie on total and keep their pre-sort order). -/
theorem claim9_counterexample :
    IsSetOrder [s2l "aaa", s2l "bbb"] [s2l "aaa", s2l "bbb"] [s2l "aaa", s2l "bbb"]
      [s2l "aaa", s2l "bbb"] ∧
    IsSetOrder [s2l "aaa", s2l "bbb"] [s2l "aaa", s2l "bbb"] [s2l "aaa", s2l "bbb"]
      [s2l "bbb", s2l "aaa"] ∧
    find_overlapping_words [s2l "aaa", s2l "bbb"] [s2l "aaa", s2l "bbb"]
        [s2l "aaa", s2l "bbb"] [s2l "aaa", s2l "bbb"] ≠
      find_overlapping_words [s2l "aaa", s2l "bbb"] [s2l "aaa", s2l "bbb"]
        [s2l "aaa", s2l "bbb"] [s2l "bbb", s2l "aaa"] := by
  refine ⟨isSetOrder_of_parts _ _ _ _ (by decide) (by decide) (by decide),
    isSetOrder_of_parts _ _ _ _ (by decide) (by decide) (by decide), by decide⟩

/-- C9 amended: for a fixed set-iteration order the overlap computation is a
pure function of its inputs; across different iteration orders of the same
intersection the outputs are permutations of each other, and they coincide
whenever all totals are pairwise distinct — only the relative order of
entries with tied totals can differ between runs. -/
theorem claim9_amended_determinism (m mk l o1 o2 : List (List Char))
    (h1 : IsSetOrder m mk l o1) (h2 : IsSetOrder m mk l o2) :
    List.Perm (find_overlapping_words m mk l o1) (find_overlapping_words m mk l o2) ∧
    (((find_overlapping_words m mk l o1).map OverlapEntry.total).Nodup →
      find_overlapping_words m mk l o1 = find_overlapping_words m mk l o2) := by
  have horder : List.Perm o1 o2 := by
    refine (List.perm_ext_iff_of_nodup h1.1 h2.1).mpr ?_
    intro w
    rw [h1.2 w, h2.2 w]
  have hperm : List.Perm (find_overlapping_words m mk l o1)
      (find_overlapping_words m mk l o2) :=
    ((List.perm_insertionSort totalGe (o1.map (entryFor m mk l))).trans
        (horder.map (entryFor m mk l))).trans
      (List.perm_insertionSort totalGe (o2.map (entryFor m mk l))).symm
  refine ⟨hperm, fun hn => ?_⟩
  exact eq_of_perm_sorted_totals _ _ hperm
    (List.sorted_insertionSort totalGe _) (List.sorted_insertionSort totalGe _) hn

/-- C9 witness: with all totals distinct, two different iteration orders of
the same intersection give identical outputs. -/
theorem claim9_witness :
    find_overlapping_words [s2l "aaa", s2l "aaa", s2l "bbb"] [s2l "aaa", s2l "aaa", s2l "bbb"]
        [s2l "aaa", s2l "aaa", s2l "bbb"] [s2l "aaa", s2l "bbb"] =
      find_overlapping_words [s2l "aaa", s2l "aaa", s2l "bbb"] [s2l "aaa", s2l "aaa", s2l "bbb"]
        [s2l "aaa", s2l "aaa", s2l "bbb"] [s2l "bbb", s2l "aaa"] :=
  (claim9_amended_determinism _ _ _ _ _
    (isSetOrder_of_parts _ _ _ _ (by decide) (by decide) (by decide))
    (isSetOrder_of_parts _ _ _ _ (by decide) (by decide) (by decide))).2 (by decide)

/-! Claim C7: a missing input aborts the run before the output is written. -/

/-- C7: if any of the three input files is missing or unreadable,
`save_results` propagates the error: the content at the output path is
whatever it was before the call (no partial report), the run ends in an
error, and the only filesystem effect is the parent-directory creation. -/
theorem claim7_abort_no_write (stop : List (List Char)) (senti : List Char → ℚ × ℚ)
    (files : List Char → Option (List Char))
    (setOrder : List (List Char) → List (List Char) → List (List Char) → List (List Char))
    (fs : FSState)
    (h : files matthewFile = none ∨ files markFile = none ∨ files lukeFile = none) :
    (save_results stop senti files setOrder fs).1.outFile = fs.outFile ∧
    (save_results stop senti files setOrder fs).2 = Except.error () ∧
    (save_results stop senti files setOrder fs).1.outDirExists = true := by
  have herr : run_analysis stop senti files setOrder = Except.error () := by
    rcases h with h | h | h
    · simp [run_analysis, analyze_gospel, load_gospel, h]
    · cases hmt : files matthewFile with
      | none => simp [run_analysis, analyze_gospel, load_gospel, hmt]
      | some t => simp [run_analysis, analyze_gospel, load_gospel, hmt, h]
    · cases hmt : files matthewFile with
      | none => simp [run_analysis, analyze_gospel, load_gospel, hmt]
      | some t =>
        cases hmk : files markFile with
        | none => simp [run_analysis, analyze_gospel, load_gospel, hmt, hmk]
        | some u => simp [run_analysis, analyze_gospel, load_gospel, hmt, hmk, h]
  unfold save_results
  rw [herr]
  exact ⟨rfl, rfl, rfl⟩

/-- C7 witness: the abort theorem applied to an empty filesystem and a
previously empty output location. -/
theorem claim7_witness :
    (save_results [] (fun _ => (0, 0)) (fun _ => none) (fun _ _ _ => [])
        ⟨false, none⟩).1.outFile = none ∧
    (save_results [] (fun _ => (0, 0)) (fun _ => none) (fun _ _ _ => [])
        ⟨false, none⟩).2 = Except.error () ∧
    (save_results [] (fun _ => (0, 0)) (fun _ => none) (fun _ _ _ => [])
        ⟨false, none⟩).1.outDirExists = true :=
  claim7_abort_no_write [] (fun _ => (0, 0)) (fun _ => none) (fun _ _ _ => [])
    ⟨false, none⟩ (Or.inl rfl)

/-! Claim C8: the overlap count in the metadata. -/

/-- C8: every report produced by `run_analysis` has
`metadata.total_overlapping_words` equal to the length of its
`overlapping_words` sequence, and the JSON document handed to the
serializer carries the same equality: looking up
`metadata.total_overlapping_words` in it yields exactly the length of its
`overlapping_words` array (`json.dump` followed by `json.loads` is the
identity on such documents, so the equality survives the round trip). -/
theorem claim8_metadata_roundtrip (stop : List (List Char)) (senti : List Char → ℚ × ℚ)
    (files : List Char → Option (List Char))
    (setOrder : List (List Char) → List (List Char) → List (List Char) → List (List Char))
    (r : Report) (h : run_analysis stop senti files setOrder = Except.ok r) :
    r.metadata.total_overlapping_words = r.overlapping_words.length ∧
    (getField (reportToJson r) (s2l "metadata")).bind
        (fun j => getField j (s2l "total_overlapping_words")) =
      some (Json.int r.overlapping_words.length) ∧
    (getField (reportToJson r) (s2l "overlapping_words")).bind jsonArrLength =
      some r.overlapping_words.length := by
  have hmeta : r.metadata.total_overlapping_words = r.overlapping_words.length := by
    unfold run_analysis at h
    cases hmt : analyze_gospel stop senti files (s2l "Matthew") matthewFile with
    | error e => rw [hmt] at h; cases h
    | ok mt =>
      rw [hmt] at h
      cases hmk : analyze_gospel stop senti files (s2l "Mark") markFile with
      | error e => rw [hmk] at h; cases h
      | ok mk =>
        rw [hmk] at h
        cases hlk : analyze_gospel stop senti files (s2l "Luke") lukeFile with
        | error e => rw [hlk] at h; cases h
        | ok lk =>
          rw [hlk] at h
          cases h
          rfl
  refine ⟨hmeta, ?_, ?_⟩
  · show (getField (reportToJson r) (s2l "metadata")).bind
        (fun j => getField j (s2l "total_overlapping_words")) =
      some (Json.int r.overlapping_words.length)
    rw [show getField (reportToJson r) (s2l "metadata") = some (metadataToJson r.metadata) from by
      simp [reportToJson, getField, List.lookup,
        show (s2l "metadata" == s2l "gospels") = false from by decide,
        show (s2l "metadata" == s2l "overlapping_words") = false from by decide]]
    show getField (metadataToJson r.metadata) (s2l "total_overlapping_words") =
      some (Json.int r.overlapping_words.length)
    rw [show getField (metadataToJson r.metadata) (s2l "total_overlapping_words") =
        some (Json.int r.metadata.total_overlapping_words) from by
      simp [metadataToJson, getField, List.lookup]]
    rw [hmeta]
  · rw [show getField (reportToJson r) (s2l "overlapping_words") =
        some (Json.arr (r.overlapping_words.map entryToJson)) from by
      simp [reportToJson, getField, List.lookup,
        show (s2l "overlapping_words" == s2l "gospels") = false from by decide]]
    show jsonArrLength (Json.arr (r.overlapping_words.map entryToJson)) =
      some r.overlapping_words.length
    simp [jsonArrLength]

/-- C8 witness: the round-trip theorem applied to a concrete successful
run, whose report is `sampleReport`. -/
theorem claim8_witness :
    sampleReport.metadata.total_overlapping_words =
      sampleReport.overlapping_words.length :=
  (claim8_metadata_roundtrip [] (fun _ => (0, 0)) (fun _ => some (s2l "001:001 abc abc"))
    (fun a _ _ => firstOccs a) sampleReport (by with_unfolding_all rfl)).1

end Gospel
